import Mathlib

/-!
Shallow embedding of the update reconciliation engine of the
cluster-control-plane-machine-set-operator (pkg/controllers/controlplanemachineset).

The Go source is embedded as executable Lean functions:
  * `MachineInfo`, `MachineRef` model the observed-state records
    (machineproviders.MachineInfo / MachineRef).
  * The classifier helpers (`needUpdateMachines`, `pendingMachines`,
    `updatedMachines`, `readyMachines`, `hasAny`, `empty`, `isDeletedMachine`)
    are direct translations of the corresponding Go helpers.
  * `sortMachineInfos`, `deviseExistingSurge`, `createMachine`, `deleteMachine`,
    `reconcileMachineRollingUpdate`, `reconcileMachineOnDeleteUpdate` and
    `reconcileMachineUpdates` are translated function by function.

The machine provider is modelled as a pair of response functions (which error,
if any, each boundary call returns); an invocation of the engine returns the
list of provider calls it dispatched, the list of status conditions it set and
the error value it returned.  The Go `ctrl.Result{}` value is always the zero
value in this code, so it is not modelled.
-/

namespace CPMS

/-- Opaque identity of a machine instance (machineproviders.ObjectRef with its
ObjectMeta).  `deletionTimestamp = none` models a nil DeletionTimestamp. -/
structure MachineRef where
  name : String
  ns : String
  deletionTimestamp : Option String
deriving DecidableEq, Repr

/-- Observed-state record per machine instance (machineproviders.MachineInfo):
the declared index, the object reference, and the readiness / update-needed
flags. -/
structure MachineInfo where
  index : Int
  machineRef : MachineRef
  ready : Bool
  needsUpdate : Bool
deriving DecidableEq, Repr

/-- The indexed observation: Go's `map[int32][]machineproviders.MachineInfo`,
modelled as an association list with (as for a Go map) pairwise-distinct keys. -/
abbrev IndexedMachineInfos : Type := List (Int × List MachineInfo)

/-- Go map indexing `m[k]`: the value bound to `k`, or the zero value
(nil slice, i.e. `[]`) when the key is absent. -/
def lookupIndex (m : IndexedMachineInfos) (k : Int) : List MachineInfo :=
  match List.find? (fun p => p.1 == k) m with
  | some p => p.2
  | none => []

/-- The key set of the indexed observation. -/
def mapKeys (m : IndexedMachineInfos) : List Int :=
  List.map (fun p => p.1) m

/-- A call dispatched to the machine provider.  A delete records the
MachineInfo whose `machineRef` was passed to `DeleteMachine` together with the
index argument of the `deleteMachine` wrapper; a create records the index
passed to `CreateMachine`. -/
inductive ProviderCall where
  | create (index : Int)
  | delete (machine : MachineInfo) (index : Int)
deriving DecidableEq, Repr

/-- The machine provider collaborator, modelled by the error (if any) each
boundary call returns. -/
structure MachineProvider where
  createErr : Int → Option String
  deleteErr : MachineRef → Option String

/-- A status condition record (metav1.Condition restricted to the fields the
engine writes). -/
structure Condition where
  type : String
  status : String
  reason : String
  message : String
deriving DecidableEq, Repr

/-- The outcome of one invocation: provider calls dispatched (in order),
status conditions set, and the returned error (`none` models a nil error;
`ctrl.Result{}` is always the zero value and is omitted). -/
structure ReconcileResult where
  calls : List ProviderCall
  conditions : List Condition
  err : Option String
deriving DecidableEq, Repr

/-- A no-op success return: `return ctrl.Result{}, nil` with no boundary call. -/
def noop : ReconcileResult :=
  { calls := [], conditions := [], err := none }

/-- isDeletedMachine checks if a machine is deleted
(`m.MachineRef.ObjectMeta.DeletionTimestamp != nil`). -/
def isDeletedMachine (m : MachineInfo) : Bool :=
  m.machineRef.deletionTimestamp.isSome

/-- needUpdateMachines returns the list of MachineInfo which have Machines
that need an update (the Go append loop is a filter). -/
def needUpdateMachines (machinesInfo : List MachineInfo) : List MachineInfo :=
  machinesInfo.filter (fun m => m.needsUpdate)

/-- pendingMachines returns the list of MachineInfo which have a Pending
Machine (`!Ready && !NeedsUpdate`). -/
def pendingMachines (machinesInfo : List MachineInfo) : List MachineInfo :=
  machinesInfo.filter (fun m => !m.ready && !m.needsUpdate)

/-- updatedMachines returns the list of MachineInfo which have an Updated
(Spec up-to-date and Ready) Machine (`Ready && !NeedsUpdate`). -/
def updatedMachines (machinesInfo : List MachineInfo) : List MachineInfo :=
  machinesInfo.filter (fun m => m.ready && !m.needsUpdate)

/-- readyMachines returns the list of MachineInfo which have a Ready Machine. -/
def readyMachines (machinesInfo : List MachineInfo) : List MachineInfo :=
  machinesInfo.filter (fun m => m.ready)

/-- hasAny checks if a MachineInfo slice contains at least 1 element
(`len(machinesInfo) > 0`). -/
def hasAny (machinesInfo : List MachineInfo) : Bool :=
  decide (0 < machinesInfo.length)

/-- empty checks if a MachineInfo slice is empty (`len(machinesInfo) == 0`). -/
def empty (machinesInfo : List MachineInfo) : Bool :=
  decide (machinesInfo.length = 0)

/-- Insertion step of a sort over the collected keys; `sort.Ints` is modelled
as insertion sort (any correct sort yields the same result). -/
def insertSorted (x : Int) : List Int → List Int
  | [] => [x]
  | y :: ys => if x ≤ y then x :: y :: ys else y :: insertSorted x ys

/-- `sort.Ints`, modelled as insertion sort. -/
def sortInts (l : List Int) : List Int :=
  l.foldr insertSorted []

/-- sortMachineInfos, translated exactly as written in the Go source: the map
keys are collected and sorted, but the result slice is then built from
`indexedMachineInfos[int32(i)]` where `i` is the positional iterator over
`keys` (0, 1, 2, ...), not the sorted key `keys[i]`, so slot `i` of the result
holds the map entry for key `i` (the nil slice when key `i` is absent). -/
def sortMachineInfos (indexedMachineInfos : IndexedMachineInfos) :
    List (List MachineInfo) :=
  let keys := sortInts (mapKeys indexedMachineInfos)
  (List.range keys.length).map
    (fun i => lookupIndex indexedMachineInfos (Int.ofNat i))

/-- deviseExistingSurge computes the current amount of replicas surge:
the total machine count over the (already sorted) slice of per-index
sequences, minus the desired replicas. -/
def deviseExistingSurge (replicas : Int) (mis : List (List MachineInfo)) : Int :=
  let currentReplicas : Int :=
    mis.foldl (fun acc mi => acc + (mi.length : Int)) 0
  currentReplicas - replicas

/-- deleteMachine deletes the Machine provided; a provider failure is wrapped
(`error deleting Machine NS/NAME: cause`) and returned, success logs and
returns nil. -/
def deleteMachine (machineProvider : MachineProvider)
    (outdatedMachine : MachineInfo) (ns : String) (idx : Int) :
    ReconcileResult :=
  match machineProvider.deleteErr outdatedMachine.machineRef with
  | some e =>
      { calls := [ProviderCall.delete outdatedMachine idx]
        conditions := []
        err := some ("error deleting Machine " ++ (ns ++ ("/" ++
          (outdatedMachine.machineRef.name ++ (": " ++ e))))) }
  | none =>
      { calls := [ProviderCall.delete outdatedMachine idx]
        conditions := []
        err := none }

/-- createMachine creates the Machine provided, but only when a surge in
Machines is still allowed (`*surgeCount < maxSurge`); otherwise it is a no-op.
A provider failure is wrapped (`error creating new Machine for index N:
cause`) and returned.  The Go code increments `*surgeCount` after a successful
create, but every call site immediately returns the result, so the increment
is never observed within an invocation and is not modelled. -/
def createMachine (machineProvider : MachineProvider) (idx : Int)
    (maxSurge : Int) (surgeCount : Int) : ReconcileResult :=
  if surgeCount < maxSurge then
    match machineProvider.createErr idx with
    | some e =>
        { calls := [ProviderCall.create idx]
          conditions := []
          err := some ("error creating new Machine for index " ++
            (toString idx ++ (": " ++ e))) }
    | none =>
        { calls := [ProviderCall.create idx]
          conditions := []
          err := none }
  else
    noop

/-- A Go `for idx, machines := range slice` loop that returns at the first
element satisfying `p`: yields the first (position, element) match. -/
def findFirstIdx (p : List MachineInfo → Bool) :
    Nat → List (List MachineInfo) → Option (Nat × List MachineInfo)
  | _, [] => none
  | i, ms :: rest => if p ms then some (i, ms) else findFirstIdx p (i + 1) rest

/-- reconcileMachineRollingUpdate implements the rolling update strategy.
One index at a time is considered; each phase returns at its first match:
first any index with no Machines (create), then any index with no Ready
Machines but a pending replacement (wait), then any index with Machines
needing an update (delete the first outdated one when an updated replacement
exists and it is not already deleted; wait when it is already deleted or when
a pending replacement exists; otherwise create).  `replicas` models
`*cpms.Spec.Replicas`, `ns` models `r.Namespace`. -/
def reconcileMachineRollingUpdate (machineProvider : MachineProvider)
    (ns : String) (replicas : Int)
    (indexedMachineInfos : IndexedMachineInfos) : ReconcileResult :=
  let sortedIndexedMs := sortMachineInfos indexedMachineInfos
  let maxSurge : Int := 1
  let surgeCount : Int := deviseExistingSurge replicas sortedIndexedMs
  -- Reconcile any index with no Machine first.
  match findFirstIdx (fun machines => empty machines) 0 sortedIndexedMs with
  | some im => createMachine machineProvider (Int.ofNat im.1) maxSurge surgeCount
  | none =>
  -- Reconcile any index with no Ready Machines but a replacement pending.
  match findFirstIdx
      (fun machines => empty (readyMachines machines) &&
        hasAny (pendingMachines machines)) 0 sortedIndexedMs with
  | some _ => noop  -- waitingForReady
  | none =>
  -- Reconcile machines that need an update.
  match findFirstIdx (fun machines => hasAny (needUpdateMachines machines)) 0
      sortedIndexedMs with
  | some im =>
    match needUpdateMachines im.2 with
    | [] => noop  -- unreachable: the phase guard ensures the list is non-empty
    | outdatedMachine :: _ =>
      if hasAny (updatedMachines im.2) then
        if !(isDeletedMachine outdatedMachine) then
          deleteMachine machineProvider outdatedMachine ns (Int.ofNat im.1)
        else
          noop  -- waitingForRemoved
      else if hasAny (pendingMachines im.2) then
        noop  -- waitingForReplacement
      else
        createMachine machineProvider (Int.ofNat im.1) maxSurge surgeCount
  | none => noop  -- noUpdatesRequired

/-- reconcileMachineOnDeleteUpdate as present in the source: the body is a
bare `return ctrl.Result{}, nil`. -/
def reconcileMachineOnDeleteUpdate (machineProvider : MachineProvider)
    (ns : String) (replicas : Int)
    (indexedMachineInfos : IndexedMachineInfos) : ReconcileResult :=
  noop

/-- invalidStrategyMessage, used to inform the user that they have provided an
invalid value for the update strategy. -/
def invalidStrategyMessage : String := "invalid value for spec.strategy.type"

/-- errRecreateStrategyNotSupported rendered as a string:
`update strategy "Recreate" is not supported`. -/
def errRecreateStrategyNotSupported : String :=
  "update strategy \"Recreate\" is not supported"

/-- errUnknownStrategy rendered as a string. -/
def errUnknownStrategy : String := "unknown update strategy"

/-- Modelled from the spec: the value of the machinev1.RollingUpdate strategy
constant, whose definition (openshift/api) is not part of this repository. -/
def strategyRollingUpdate : String := "RollingUpdate"

/-- Modelled from the spec: the value of the machinev1.OnDelete strategy
constant, whose definition (openshift/api) is not part of this repository. -/
def strategyOnDelete : String := "OnDelete"

/-- Modelled from the spec: the value of the machinev1.Recreate strategy
constant, whose definition (openshift/api) is not part of this repository. -/
def strategyRecreate : String := "Recreate"

/-- Modelled from the spec: the value of the conditionDegraded constant,
which is declared in a repository file not shown in the source slice. -/
def conditionDegraded : String := "Degraded"

/-- Modelled from the spec: the value of the reasonInvalidStrategy constant,
which is declared in a repository file not shown in the source slice. -/
def reasonInvalidStrategy : String := "InvalidStrategy"

/-- reconcileMachineUpdates dispatches on the update strategy: RollingUpdate
and OnDelete route to their engines; Recreate and any unknown value set a
Degraded condition (reason InvalidStrategy, message prefixed by
`invalid value for spec.strategy.type`), and return a nil error. -/
def reconcileMachineUpdates (machineProvider : MachineProvider) (ns : String)
    (strategy : String) (replicas : Int)
    (machineInfos : IndexedMachineInfos) : ReconcileResult :=
  if strategy == strategyRollingUpdate then
    reconcileMachineRollingUpdate machineProvider ns replicas machineInfos
  else if strategy == strategyOnDelete then
    reconcileMachineOnDeleteUpdate machineProvider ns replicas machineInfos
  else if strategy == strategyRecreate then
    { calls := []
      conditions := [{ type := conditionDegraded
                       status := "True"
                       reason := reasonInvalidStrategy
                       message := invalidStrategyMessage ++ (": " ++
                         errRecreateStrategyNotSupported) }]
      err := none }
  else
    { calls := []
      conditions := [{ type := conditionDegraded
                       status := "True"
                       reason := reasonInvalidStrategy
                       message := invalidStrategyMessage ++ (": " ++
                         (errUnknownStrategy ++ (": " ++ strategy))) }]
      err := none }

/-- machineInfosByIndex as present in the source file updates.go: the grouping
loop is an unimplemented TODO, so the function returns the empty map for every
input. -/
def machineInfosByIndex (machineInfos : List MachineInfo) :
    IndexedMachineInfos :=
  []

/-- The total observed machine count of an indexed observation: the sum of the
per-index sequence lengths over the whole map. -/
def totalMachines (m : IndexedMachineInfos) : Int :=
  m.foldl (fun acc p => acc + (p.2.length : Int)) 0

/-! ### Concrete fixtures -/

/-- A provider on which every boundary call succeeds. -/
def pOk : MachineProvider :=
  { createErr := fun _ => none, deleteErr := fun _ => none }

/-- Builds a MachineInfo from its index, name, flags and deletion timestamp. -/
def mkMachine (i : Int) (name : String) (ready needsUpdate : Bool)
    (del : Option String) : MachineInfo :=
  { index := i
    machineRef := { name := name, ns := "ns", deletionTimestamp := del }
    ready := ready
    needsUpdate := needsUpdate }

/-- Observation with non-dense keys {0, 1, 5}, one ready current machine each:
with 2 desired replicas its total surge is 3 − 2 = 1. -/
def exSurge : IndexedMachineInfos :=
  [(0, [mkMachine 0 "a" true false none]),
   (1, [mkMachine 1 "b" true false none]),
   (5, [mkMachine 5 "f" true false none])]

/-- Observation with non-dense keys {1, 2, 3}, one ready current machine each
(3 desired replicas, no update needed anywhere). -/
def exSparse : IndexedMachineInfos :=
  [(1, [mkMachine 1 "b" true false none]),
   (2, [mkMachine 2 "c" true false none]),
   (3, [mkMachine 3 "d" true false none])]

/-- Observation with surge 1 (4 machines, 3 desired): index 0 is empty while
index 1 holds an outdated machine together with its updated replacement. -/
def exBlocked : IndexedMachineInfos :=
  [(0, []),
   (1, [mkMachine 1 "o" true true none, mkMachine 1 "n" true false none]),
   (2, [mkMachine 2 "c" true false none, mkMachine 2 "c2" true false none])]

/-- Observation for the OnDelete engine: index 0 empty, indices 1 and 2 each
hold a ready current machine (3 desired replicas, surge −1). -/
def exOnDelete : IndexedMachineInfos :=
  [(0, []),
   (1, [mkMachine 1 "b" true false none]),
   (2, [mkMachine 2 "c" true false none])]

/-- A single MachineInfo declaring index 0, input for the index grouper. -/
def miGrouper : MachineInfo := mkMachine 0 "g" true false none

/-- Observation in which index 0 holds an outdated live machine plus its
updated replacement: the engine deletes the outdated machine. -/
def exDelete : IndexedMachineInfos :=
  [(0, [mkMachine 0 "old" true true none, mkMachine 0 "new" true false none]),
   (1, [mkMachine 1 "b" true false none]),
   (2, [mkMachine 2 "c" true false none])]

/-- Observation in which index 1 holds an outdated live machine plus its
updated replacement: the engine deletes the outdated machine at index 1. -/
def exDeleteTwo : IndexedMachineInfos :=
  [(0, [mkMachine 0 "a" true false none]),
   (1, [mkMachine 1 "old1" true true none, mkMachine 1 "new1" true false none]),
   (2, [mkMachine 2 "c" true false none])]

/-- Observation in which the outdated machine at index 0 already carries a
deletion timestamp and its updated replacement is present (spec scenario S5). -/
def exWaitRemoval : IndexedMachineInfos :=
  [(0, [mkMachine 0 "old" true true (some "t"), mkMachine 0 "new" true false none]),
   (1, [mkMachine 1 "b" true false none]),
   (2, [mkMachine 2 "c" true false none])]

/-! ### Helper lemmas -/

/-- The loop finds nothing iff no element of the slice satisfies the guard. -/
theorem findFirstIdx_eq_none_iff (p : List MachineInfo → Bool) (i : Nat)
    (l : List (List MachineInfo)) :
    findFirstIdx p i l = none ↔ ∀ ms ∈ l, p ms = false := by
  induction l generalizing i with
  | nil => simp [findFirstIdx]
  | cons a t ih =>
    by_cases h : p a = true
    · simp [findFirstIdx, h]
    · simp [findFirstIdx, h, ih]

/-- The loop's first match satisfies the guard and lives at the reported
position (relative to the starting counter). -/
theorem findFirstIdx_some (p : List MachineInfo → Bool) (i j : Nat)
    (l : List (List MachineInfo)) (ms : List MachineInfo)
    (h : findFirstIdx p i l = some (j, ms)) :
    p ms = true ∧ i ≤ j ∧ l[j - i]? = some ms := by
  induction l generalizing i with
  | nil => simp [findFirstIdx] at h
  | cons a t ih =>
    rw [findFirstIdx] at h
    by_cases hp : p a = true
    · rw [if_pos hp] at h
      have h' := Option.some.inj h
      injection h' with h1 h2
      subst h1; subst h2
      exact ⟨hp, Nat.le_refl _, by simp⟩
    · rw [if_neg hp] at h
      obtain ⟨hpm, hij, hget⟩ := ih (i + 1) h
      refine ⟨hpm, Nat.le_trans (Nat.le_succ i) hij, ?_⟩
      have hsub : j - i = (j - (i + 1)) + 1 := by omega
      rw [hsub]
      simpa using hget

/-- Positions of the slice built by `sortMachineInfos` mirror map lookups:
slot `j` holds the map entry for key `j`. -/
theorem sortMachineInfos_getElem (m : IndexedMachineInfos) (j : Nat)
    (ms : List MachineInfo) (h : (sortMachineInfos m)[j]? = some ms) :
    ms = lookupIndex m (Int.ofNat j) := by
  unfold sortMachineInfos at h
  rw [List.getElem?_map] at h
  cases hr : (List.range (sortInts (mapKeys m)).length)[j]? with
  | none => rw [hr] at h; simp at h
  | some a =>
    rw [hr] at h
    obtain ⟨hlt, ha⟩ := List.getElem?_eq_some_iff.mp hr
    rw [List.getElem_range] at ha
    subst ha
    simpa using h.symm

/-- `hasAny` is non-emptiness. -/
theorem hasAny_iff (l : List MachineInfo) : hasAny l = true ↔ l ≠ [] := by
  simp [hasAny, List.length_pos]

/-- `empty` is emptiness. -/
theorem empty_iff (l : List MachineInfo) : empty l = true ↔ l = [] := by
  simp [empty]

/-- The calls of `createMachine`: none when blocked, a single create otherwise. -/
theorem createMachine_calls (p : MachineProvider) (i mx s : Int) :
    (createMachine p i mx s).calls = [] ∨
      (createMachine p i mx s).calls = [ProviderCall.create i] := by
  unfold createMachine
  by_cases h : s < mx
  · rw [if_pos h]
    cases p.createErr i <;> simp
  · rw [if_neg h]
    exact Or.inl rfl

/-- A blocked create (`surgeCount ≥ maxSurge`) is a no-op success. -/
theorem createMachine_blocked (p : MachineProvider) (i mx s : Int)
    (h : ¬s < mx) : createMachine p i mx s = noop := by
  unfold createMachine
  rw [if_neg h]

/-- `deleteMachine` always dispatches exactly its one delete call. -/
theorem deleteMachine_calls (p : MachineProvider) (o : MachineInfo)
    (ns : String) (i : Int) :
    (deleteMachine p o ns i).calls = [ProviderCall.delete o i] := by
  unfold deleteMachine
  cases p.deleteErr o.machineRef <;> rfl

/-- Every invocation of the rolling-update engine is a no-op, a single
(possibly surge-blocked) create at some slice position, or a delete of the
first outdated machine of a slice entry that also holds an updated machine. -/
theorem rolling_cases (p : MachineProvider) (ns : String) (r : Int)
    (m : IndexedMachineInfos) :
    reconcileMachineRollingUpdate p ns r m = noop ∨
    (∃ j : Nat, reconcileMachineRollingUpdate p ns r m =
        createMachine p (Int.ofNat j) 1
          (deviseExistingSurge r (sortMachineInfos m))) ∨
    (∃ (j : Nat) (o : MachineInfo) (ms : List MachineInfo),
        reconcileMachineRollingUpdate p ns r m =
          deleteMachine p o ns (Int.ofNat j) ∧
        ms = lookupIndex m (Int.ofNat j) ∧
        (needUpdateMachines ms).head? = some o ∧
        hasAny (updatedMachines ms) = true ∧
        isDeletedMachine o = false) := by
  simp only [reconcileMachineRollingUpdate]
  split
  · next im heq => exact Or.inr (Or.inl ⟨im.1, rfl⟩)
  · next heq1 =>
    split
    · next im heq => exact Or.inl rfl
    · next heq2 =>
      split
      · next im heq3 =>
        split
        · next hnu => exact Or.inl rfl
        · next o rest hnu =>
          by_cases hup : hasAny (updatedMachines im.2) = true
          · rw [if_pos hup]
            by_cases hdel : isDeletedMachine o = true
            · rw [if_neg (by simp [hdel])]
              exact Or.inl rfl
            · rw [if_pos (by simp [Bool.not_eq_true] at hdel ⊢; exact hdel)]
              refine Or.inr (Or.inr ⟨im.1, o, im.2, rfl, ?_, ?_, hup, ?_⟩)
              · obtain ⟨-, -, hget⟩ := findFirstIdx_some _ 0 im.1 _ im.2
                  (by rw [← heq3])
                exact sortMachineInfos_getElem m im.1 im.2 (by simpa using hget)
              · rw [hnu]; rfl
              · simpa using hdel
          · rw [if_neg hup]
            split
            · exact Or.inl rfl
            · exact Or.inr (Or.inl ⟨im.1, rfl⟩)
      · next heq3 => exact Or.inl rfl

/-- When the first phase finds an empty slice entry, the invocation is exactly
the (surge-gated) create at that position. -/
theorem rolling_phase1 (p : MachineProvider) (ns : String) (r : Int)
    (m : IndexedMachineInfos) (j : Nat) (ms : List MachineInfo)
    (h : findFirstIdx (fun machines => empty machines) 0 (sortMachineInfos m) =
      some (j, ms)) :
    reconcileMachineRollingUpdate p ns r m =
      createMachine p (Int.ofNat j) 1
        (deviseExistingSurge r (sortMachineInfos m)) := by
  simp only [reconcileMachineRollingUpdate]
  rw [h]

/-- When no earlier phase fires and the first outdated representative is
already deleted while an updated replacement exists, the invocation is a
no-op success. -/
theorem rolling_wait_removal (p : MachineProvider) (ns : String) (r : Int)
    (m : IndexedMachineInfos) (j : Nat) (ms : List MachineInfo)
    (o : MachineInfo) (rest : List MachineInfo)
    (h1 : findFirstIdx (fun machines => empty machines) 0
      (sortMachineInfos m) = none)
    (h2 : findFirstIdx (fun machines => empty (readyMachines machines) &&
      hasAny (pendingMachines machines)) 0 (sortMachineInfos m) = none)
    (h3 : findFirstIdx (fun machines => hasAny (needUpdateMachines machines)) 0
      (sortMachineInfos m) = some (j, ms))
    (h4 : needUpdateMachines ms = o :: rest)
    (h5 : hasAny (updatedMachines ms) = true)
    (h6 : isDeletedMachine o = true) :
    reconcileMachineRollingUpdate p ns r m = noop := by
  simp only [reconcileMachineRollingUpdate]
  rw [h1, h2, h3]
  simp only []
  rw [h4]
  simp [h5, h6]

/-- Inversion of a dispatched delete: it came from the outdated-index phase,
so the deleted machine is the head of the outdated machines of the map entry
at the recorded index, an updated machine exists at that entry, and the
deleted machine is live and outdated. -/
theorem delete_call_inversion (p : MachineProvider) (ns : String) (r : Int)
    (m : IndexedMachineInfos) (mach : MachineInfo) (i : Int)
    (h : ProviderCall.delete mach i ∈
      (reconcileMachineRollingUpdate p ns r m).calls) :
    ∃ ms, ms = lookupIndex m i ∧
      (needUpdateMachines ms).head? = some mach ∧
      hasAny (updatedMachines ms) = true ∧
      isDeletedMachine mach = false ∧
      mach.needsUpdate = true ∧
      mach.machineRef.deletionTimestamp = none := by
  rcases rolling_cases p ns r m with hc | ⟨j, hc⟩ | ⟨j, o, ms, hc, hm, hh, hu, hd⟩
  · rw [hc] at h
    simp [noop] at h
  · rw [hc] at h
    rcases createMachine_calls p (Int.ofNat j) 1
        (deviseExistingSurge r (sortMachineInfos m)) with h2 | h2 <;>
      rw [h2] at h <;> simp at h
  · rw [hc, deleteMachine_calls] at h
    simp only [List.mem_singleton, ProviderCall.delete.injEq] at h
    obtain ⟨rfl, rfl⟩ := h
    have hmem : mach ∈ needUpdateMachines ms := by
      cases hnu : needUpdateMachines ms with
      | nil => rw [hnu] at hh; simp at hh
      | cons a t =>
        rw [hnu] at hh
        have ha : a = mach := by simpa using hh
        rw [← ha]
        exact List.mem_cons_self a t
    have hflt := List.mem_filter.mp hmem
    refine ⟨ms, hm, hh, hu, hd, by simpa using hflt.2, ?_⟩
    cases hdt : mach.machineRef.deletionTimestamp with
    | none => rfl
    | some t =>
      rw [isDeletedMachine, hdt] at hd
      cases hd

/-- The rolling-update engine dispatches at most one provider call. -/
theorem rolling_len (p : MachineProvider) (ns : String) (r : Int)
    (m : IndexedMachineInfos) :
    (reconcileMachineRollingUpdate p ns r m).calls.length ≤ 1 := by
  rcases rolling_cases p ns r m with hc | ⟨j, hc⟩ | ⟨j, o, ms, hc, -, -, -, -⟩ <;>
    rw [hc]
  · simp [noop]
  · rcases createMachine_calls p (Int.ofNat j) 1
        (deviseExistingSurge r (sortMachineInfos m)) with h2 | h2 <;>
      rw [h2] <;> simp
  · rw [deleteMachine_calls]; simp

/-- The dispatcher, on any strategy, dispatches at most one provider call. -/
theorem updates_len (p : MachineProvider) (ns s : String) (r : Int)
    (m : IndexedMachineInfos) :
    (reconcileMachineUpdates p ns s r m).calls.length ≤ 1 := by
  unfold reconcileMachineUpdates
  by_cases h1 : (s == strategyRollingUpdate) = true
  · rw [if_pos h1]; exact rolling_len p ns r m
  · rw [if_neg h1]
    by_cases h2 : (s == strategyOnDelete) = true
    · rw [if_pos h2]; simp [reconcileMachineOnDeleteUpdate, noop]
    · rw [if_neg h2]
      by_cases h3 : (s == strategyRecreate) = true
      · rw [if_pos h3]; simp
      · rw [if_neg h3]; simp

/-! ### Claim theorems -/

/-- C1: for every invocation of the rolling-update engine — and of the
dispatcher on any strategy, replica count and indexed observation — at most
one of CreateMachine / DeleteMachine is called, and that at most once: every
phase returns after its first actionable decision. -/
theorem single_action_per_invocation (p : MachineProvider) (ns s : String)
    (r : Int) (m : IndexedMachineInfos) :
    (reconcileMachineRollingUpdate p ns r m).calls.length ≤ 1 ∧
    (reconcileMachineUpdates p ns s r m).calls.length ≤ 1 :=
  ⟨rolling_len p ns r m, updates_len p ns s r m⟩

/-- C2: if the rolling-update engine dispatches DeleteMachine for a machine at
index i, the observed sequence at index i contains at least one MachineInfo
with ready = true and needsUpdate = false. -/
theorem delete_requires_updated_replacement (p : MachineProvider) (ns : String)
    (r : Int) (m : IndexedMachineInfos) (mach : MachineInfo) (i : Int)
    (h : ProviderCall.delete mach i ∈
      (reconcileMachineRollingUpdate p ns r m).calls) :
    ∃ mi, mi ∈ lookupIndex m i ∧ mi.ready = true ∧ mi.needsUpdate = false := by
  obtain ⟨ms, hms, -, hu, -, -, -⟩ := delete_call_inversion p ns r m mach i h
  rw [hasAny_iff] at hu
  obtain ⟨mi, hmi⟩ := List.exists_mem_of_ne_nil _ hu
  have hf := List.mem_filter.mp hmi
  have h2 : mi.ready = true ∧ mi.needsUpdate = false := by
    have hb := hf.2
    simp only [Bool.and_eq_true, Bool.not_eq_true'] at hb
    exact hb
  exact ⟨mi, hms ▸ hf.1, h2.1, h2.2⟩

/-- C2 witness: on an observation whose index 0 holds an outdated machine and
its updated replacement, the engine deletes at index 0, and index 0 indeed
contains a ready current machine. -/
theorem delete_requires_updated_replacement_witness :
    (ProviderCall.delete (mkMachine 0 "old" true true none) 0 ∈
      (reconcileMachineRollingUpdate pOk "ns" 3 exDelete).calls) ∧
    ∃ mi, mi ∈ lookupIndex exDelete 0 ∧ mi.ready = true ∧
      mi.needsUpdate = false :=
  ⟨by decide,
   delete_requires_updated_replacement pOk "ns" 3 exDelete
     (mkMachine 0 "old" true true none) 0 (by decide)⟩

/-- C10: every DeleteMachine call made by the rolling-update engine targets a
MachineInfo with needsUpdate = true and a nil deletionTimestamp. -/
theorem delete_targets_live_outdated (p : MachineProvider) (ns : String)
    (r : Int) (m : IndexedMachineInfos) (mach : MachineInfo) (i : Int)
    (h : ProviderCall.delete mach i ∈
      (reconcileMachineRollingUpdate p ns r m).calls) :
    mach.needsUpdate = true ∧ mach.machineRef.deletionTimestamp = none := by
  obtain ⟨ms, -, -, -, -, h5, h6⟩ := delete_call_inversion p ns r m mach i h
  exact ⟨h5, h6⟩

/-- C10 witness: the machine deleted at index 1 of `exDeleteTwo` is outdated
and carries no deletion timestamp. -/
theorem delete_targets_live_outdated_witness :
    (ProviderCall.delete (mkMachine 1 "old1" true true none) 1 ∈
      (reconcileMachineRollingUpdate pOk "ns" 3 exDeleteTwo).calls) ∧
    (mkMachine 1 "old1" true true none).needsUpdate = true ∧
    (mkMachine 1 "old1" true true none).machineRef.deletionTimestamp = none :=
  ⟨by decide,
   delete_targets_live_outdated pOk "ns" 3 exDeleteTwo
     (mkMachine 1 "old1" true true none) 1 (by decide)⟩

/-- C3: on the observation `exSurge` (keys 0, 1, 5; desired replicas 2) the
total observed machine count exceeds the desired replicas by 1 = maxSurge,
yet the engine still calls CreateMachine (for index 2): `sortMachineInfos`
looks entries up by positional iterator instead of sorted key, so the machine
at key 5 is not counted and slot 2 appears empty. -/
theorem surge_bound_violated_on_sparse_keys :
    totalMachines exSurge - 2 ≥ 1 ∧
    (reconcileMachineRollingUpdate pOk "ns" 2 exSurge).calls =
      [ProviderCall.create 2] := by decide

/-- C5: on the observation `exSparse` (keys 1, 2, 3, every observed machine
ready and current) an engine iterating the observed keys would take no action,
but the code creates a machine at index 0 — a key that is not even observed —
because `sortMachineInfos` indexes the map by loop position, not sorted key. -/
theorem ordering_violated_on_sparse_keys :
    (∀ k ∈ mapKeys exSparse,
      ∀ mi ∈ lookupIndex exSparse k, mi.ready = true ∧ mi.needsUpdate = false) ∧
    (0 : Int) ∉ mapKeys exSparse ∧
    (reconcileMachineRollingUpdate pOk "ns" 3 exSparse).calls =
      [ProviderCall.create 0] := by decide

/-- C7: the index grouper of updates.go is an unimplemented TODO returning the
empty map, so the input element `miGrouper` does not appear under its declared
index (it appears nowhere). -/
theorem grouper_drops_elements :
    machineInfosByIndex [miGrouper] = ([] : IndexedMachineInfos) ∧
    miGrouper ∉ lookupIndex (machineInfosByIndex [miGrouper]) miGrouper.index :=
  by decide

/-- C8: on the OnDelete strategy with an observation whose index 0 is empty
and whose surge (−1) is below maxSurge, the OnDelete engine (a bare stub in
the source) makes no CreateMachine call at all. -/
theorem onDelete_ignores_empty_index :
    lookupIndex exOnDelete 0 = [] ∧
    deviseExistingSurge 3 (sortMachineInfos exOnDelete) < 1 ∧
    (reconcileMachineOnDeleteUpdate pOk "ns" 3 exOnDelete).calls = [] :=
  by decide

/-- C4 counterexample: on `exBlocked` the surge is 1 ≥ maxSurge, index 0 is
empty, and index 1 holds an outdated live machine with an updated replacement
— yet the invocation makes no provider call at all: the blocked create at
index 0 ends the invocation instead of falling through to the deletion. -/
theorem blocked_create_halts_invocation :
    deviseExistingSurge 3 (sortMachineInfos exBlocked) ≥ 1 ∧
    lookupIndex exBlocked 0 = [] ∧
    hasAny (needUpdateMachines (lookupIndex exBlocked 1)) = true ∧
    hasAny (updatedMachines (lookupIndex exBlocked 1)) = true ∧
    isDeletedMachine (mkMachine 1 "o" true true none) = false ∧
    (reconcileMachineRollingUpdate pOk "ns" 3 exBlocked).calls = [] :=
  by decide

/-- Folding length-accumulation over slice entries is summation. -/
theorem foldl_len_eq (l : List (List MachineInfo)) (a : Int) :
    l.foldl (fun acc mi => acc + (mi.length : Int)) a =
      a + (l.map (fun mi => (mi.length : Int))).sum := by
  induction l generalizing a with
  | nil => simp
  | cons x t ih => simp [ih, add_assoc]

/-- Folding length-accumulation over map entries is summation. -/
theorem foldl_entry_len_eq (l : IndexedMachineInfos) (a : Int) :
    l.foldl (fun acc p => acc + (p.2.length : Int)) a =
      a + (l.map (fun p => (p.2.length : Int))).sum := by
  induction l generalizing a with
  | nil => simp
  | cons x t ih => simp [ih, add_assoc]

/-- Inserting into the sorted key list grows it by one. -/
theorem insertSorted_length (x : Int) (l : List Int) :
    (insertSorted x l).length = l.length + 1 := by
  induction l with
  | nil => rfl
  | cons y t ih =>
    rw [insertSorted]
    by_cases h : x ≤ y
    · rw [if_pos h]; rfl
    · rw [if_neg h]; simp [ih]

/-- Sorting the keys preserves their number. -/
theorem sortInts_length (l : List Int) : (sortInts l).length = l.length := by
  induction l with
  | nil => rfl
  | cons x t ih =>
    simp only [sortInts, List.foldr_cons] at *
    rw [insertSorted_length, ih]
    simp

/-- `empty` is false on a non-empty slice. -/
theorem empty_eq_false (l : List MachineInfo) (h : l ≠ []) :
    empty l = false := by
  have hlen : l.length ≠ 0 := fun hc => h (List.length_eq_zero.mp hc)
  simp [empty, hlen]

/-- `hasAny` is false on an empty slice. -/
theorem hasAny_eq_false (l : List MachineInfo) (h : l = []) :
    hasAny l = false := by
  rw [h]; rfl

/-- The key list is as long as the map. -/
theorem mapKeys_length (m : IndexedMachineInfos) :
    (mapKeys m).length = m.length := by
  simp [mapKeys]

/-- A map lookup at the head key returns the head value. -/
theorem lookupIndex_cons_self (k0 : Int) (v0 : List MachineInfo)
    (rest : IndexedMachineInfos) :
    lookupIndex ((k0, v0) :: rest) k0 = v0 := by
  have hb : (k0 == k0) = true := by simp
  simp [lookupIndex, List.find?_cons, hb]

/-- A map lookup at a different key skips the head entry. -/
theorem lookupIndex_cons_ne (k0 : Int) (v0 : List MachineInfo)
    (rest : IndexedMachineInfos) (k : Int) (h : k0 ≠ k) :
    lookupIndex ((k0, v0) :: rest) k = lookupIndex rest k := by
  have hb : (k0 == k) = false := by simp [h]
  simp [lookupIndex, List.find?_cons, hb]

/-- With pairwise-distinct keys, summing the lookup lengths over the key list
is summing the entry lengths over the map. -/
theorem sum_lookup_eq_sum_entries (m : IndexedMachineInfos)
    (hnd : (mapKeys m).Nodup) :
    ((mapKeys m).map (fun k => ((lookupIndex m k).length : Int))).sum =
      (m.map (fun p => (p.2.length : Int))).sum := by
  induction m with
  | nil => rfl
  | cons e rest ih =>
    obtain ⟨k0, v0⟩ := e
    have hke : mapKeys ((k0, v0) :: rest) = k0 :: mapKeys rest := rfl
    rw [hke] at hnd
    rw [List.nodup_cons] at hnd
    have hstep : ∀ k ∈ mapKeys rest,
        ((lookupIndex ((k0, v0) :: rest) k).length : Int) =
          ((lookupIndex rest k).length : Int) := by
      intro k hk
      rw [lookupIndex_cons_ne k0 v0 rest k
        (fun hEq => hnd.1 (by rw [hEq]; exact hk))]
    calc ((mapKeys ((k0, v0) :: rest)).map
            (fun k => ((lookupIndex ((k0, v0) :: rest) k).length : Int))).sum
        = ((lookupIndex ((k0, v0) :: rest) k0).length : Int) +
          ((mapKeys rest).map (fun k =>
            ((lookupIndex ((k0, v0) :: rest) k).length : Int))).sum := by
          rw [hke, List.map_cons, List.sum_cons]
      _ = (v0.length : Int) + ((mapKeys rest).map
            (fun k => ((lookupIndex rest k).length : Int))).sum := by
          rw [lookupIndex_cons_self, List.map_congr_left hstep]
      _ = (v0.length : Int) + (rest.map (fun p => (p.2.length : Int))).sum := by
          rw [ih hnd.2]
      _ = (((k0, v0) :: rest).map (fun p => (p.2.length : Int))).sum := by
          rw [List.map_cons, List.sum_cons]

/-- A duplicate-free key set containing 0..n−1 (n the map size) is exactly
0..n−1, up to order. -/
theorem dense_keys_perm (m : IndexedMachineInfos)
    (hnd : (mapKeys m).Nodup)
    (hdense : ∀ j ∈ List.range m.length, Int.ofNat j ∈ mapKeys m) :
    ((List.range m.length).map Int.ofNat).Perm (mapKeys m) := by
  have hinj : Function.Injective Int.ofNat := fun a b h => Int.ofNat.inj h
  have hn1 : ((List.range m.length).map Int.ofNat).Nodup :=
    List.Nodup.map hinj (List.nodup_range m.length)
  have hsub : (List.range m.length).map Int.ofNat ⊆ mapKeys m := by
    intro k hk
    obtain ⟨j, hj, rfl⟩ := List.mem_map.mp hk
    exact hdense j hj
  refine (List.subperm_of_subset hn1 hsub).perm_of_length_le ?_
  simp [mapKeys_length]

/-- In a dense, duplicate-free map every key is some 0 ≤ j < n. -/
theorem key_is_dense (m : IndexedMachineInfos)
    (hnd : (mapKeys m).Nodup)
    (hdense : ∀ j ∈ List.range m.length, Int.ofNat j ∈ mapKeys m)
    (k : Int) (hk : k ∈ mapKeys m) :
    ∃ j, j ∈ List.range m.length ∧ k = Int.ofNat j := by
  have hmem : k ∈ (List.range m.length).map Int.ofNat :=
    (dense_keys_perm m hnd hdense).mem_iff.mpr hk
  obtain ⟨j, hj, rfl⟩ := List.mem_map.mp hmem
  exact ⟨j, hj, rfl⟩

/-- On a dense, duplicate-free observation the code-computed surge agrees with
the observation-level surge: total observed machines minus desired replicas. -/
theorem surge_eq_total (m : IndexedMachineInfos)
    (hnd : (mapKeys m).Nodup)
    (hdense : ∀ j ∈ List.range m.length, Int.ofNat j ∈ mapKeys m)
    (r : Int) :
    deviseExistingSurge r (sortMachineInfos m) = totalMachines m - r := by
  have hslice : (sortMachineInfos m).map (fun mi => (mi.length : Int)) =
      ((List.range m.length).map Int.ofNat).map
        (fun k => ((lookupIndex m k).length : Int)) := by
    simp only [sortMachineInfos, List.map_map]
    rw [sortInts_length, mapKeys_length]
    rfl
  simp only [deviseExistingSurge, totalMachines]
  rw [foldl_len_eq, foldl_entry_len_eq, hslice,
    ((dense_keys_perm m hnd hdense).map
      (fun k => ((lookupIndex m k).length : Int))).sum_eq,
    sum_lookup_eq_sum_entries m hnd]

/-- Membership in the slice built by `sortMachineInfos` is exactly being the
lookup of a position below the map size. -/
theorem slice_mem_iff (m : IndexedMachineInfos) (ms : List MachineInfo) :
    ms ∈ sortMachineInfos m ↔
      ∃ i, i ∈ List.range m.length ∧ ms = lookupIndex m (Int.ofNat i) := by
  simp only [sortMachineInfos, List.mem_map, sortInts_length, mapKeys_length]
  constructor
  · rintro ⟨i, hi, rfl⟩
    exact ⟨i, hi, rfl⟩
  · rintro ⟨i, hi, rfl⟩
    exact ⟨i, hi, rfl⟩

/-- When no earlier phase fires and the first outdated index has neither an
updated nor a pending replacement, the invocation is exactly the (surge-gated)
create at that index. -/
theorem rolling_phase3_create (p : MachineProvider) (ns : String) (r : Int)
    (m : IndexedMachineInfos) (j : Nat) (ms : List MachineInfo)
    (o : MachineInfo) (rest : List MachineInfo)
    (h1 : findFirstIdx (fun machines => empty machines) 0
      (sortMachineInfos m) = none)
    (h2 : findFirstIdx (fun machines => empty (readyMachines machines) &&
      hasAny (pendingMachines machines)) 0 (sortMachineInfos m) = none)
    (h3 : findFirstIdx (fun machines => hasAny (needUpdateMachines machines)) 0
      (sortMachineInfos m) = some (j, ms))
    (h4 : needUpdateMachines ms = o :: rest)
    (h5 : hasAny (updatedMachines ms) = false)
    (h6 : hasAny (pendingMachines ms) = false) :
    reconcileMachineRollingUpdate p ns r m =
      createMachine p (Int.ofNat j) 1
        (deviseExistingSurge r (sortMachineInfos m)) := by
  simp only [reconcileMachineRollingUpdate]
  rw [h1, h2, h3]
  simp only []
  rw [h4]
  simp [h5, h6]

/-- C4 amended: on every dense, duplicate-free indexed observation (keys
exactly 0..n−1 — on sparse keys the C3/C5 indexing bug corrupts the surge
accounting) whose surge — total observed machines minus desired replicas — is
at least maxSurge, if an empty index is observed, or if no index is empty or
waiting on a sole pending replacement and the first outdated index has neither
an updated nor a pending replacement, then the blocked create is a no-op and
the invocation returns success immediately with no provider call; deletions
at later indices are not considered in that same invocation. -/
theorem blocked_create_is_noop (p : MachineProvider) (ns : String) (r : Int)
    (m : IndexedMachineInfos)
    (hnd : (mapKeys m).Nodup)
    (hdense : ∀ j ∈ List.range m.length, Int.ofNat j ∈ mapKeys m)
    (hs : totalMachines m - r ≥ 1)
    (henc :
      (∃ k ∈ mapKeys m, lookupIndex m k = []) ∨
      ((∀ k ∈ mapKeys m, lookupIndex m k ≠ []) ∧
       (∀ k ∈ mapKeys m, ¬(readyMachines (lookupIndex m k) = [] ∧
          pendingMachines (lookupIndex m k) ≠ [])) ∧
       ∃ j ms,
         findFirstIdx (fun machines => hasAny (needUpdateMachines machines)) 0
           (sortMachineInfos m) = some (j, ms) ∧
         updatedMachines ms = [] ∧ pendingMachines ms = [])) :
    (reconcileMachineRollingUpdate p ns r m).calls = [] ∧
    (reconcileMachineRollingUpdate p ns r m).err = none := by
  have hsurge : ¬deviseExistingSurge r (sortMachineInfos m) < 1 := by
    rw [surge_eq_total m hnd hdense r]
    omega
  have hb : ∀ i : Int,
      createMachine p i 1 (deviseExistingSurge r (sortMachineInfos m)) = noop :=
    fun i => createMachine_blocked p i 1 _ hsurge
  rcases henc with ⟨k, hk, hkE⟩ | ⟨hNE, hNP, j, ms, hFind, hUpd, hPend⟩
  · obtain ⟨j, hj, rfl⟩ := key_is_dense m hnd hdense k hk
    have hmem : ([] : List MachineInfo) ∈ sortMachineInfos m :=
      (slice_mem_iff m []).mpr ⟨j, hj, hkE.symm⟩
    cases hf : findFirstIdx (fun machines => empty machines) 0
        (sortMachineInfos m) with
    | none =>
      rw [findFirstIdx_eq_none_iff] at hf
      have hcontra := hf [] hmem
      simp [empty] at hcontra
    | some im =>
      have he := rolling_phase1 p ns r m im.1 im.2 (by rw [hf])
      rw [he, hb]
      exact ⟨rfl, rfl⟩
  · have h1 : findFirstIdx (fun machines => empty machines) 0
        (sortMachineInfos m) = none := by
      rw [findFirstIdx_eq_none_iff]
      intro ms' hms'
      obtain ⟨i, hi, rfl⟩ := (slice_mem_iff m ms').mp hms'
      exact empty_eq_false _ (hNE (Int.ofNat i) (hdense i hi))
    have h2 : findFirstIdx (fun machines => empty (readyMachines machines) &&
        hasAny (pendingMachines machines)) 0 (sortMachineInfos m) = none := by
      rw [findFirstIdx_eq_none_iff]
      intro ms' hms'
      obtain ⟨i, hi, rfl⟩ := (slice_mem_iff m ms').mp hms'
      have hnp := hNP (Int.ofNat i) (hdense i hi)
      by_cases hr : readyMachines (lookupIndex m (Int.ofNat i)) = []
      · have hp : pendingMachines (lookupIndex m (Int.ofNat i)) = [] := by
          by_contra hc
          exact hnp ⟨hr, hc⟩
        rw [hasAny_eq_false _ hp, Bool.and_false]
      · rw [empty_eq_false _ hr, Bool.false_and]
    obtain ⟨hguard, -, -⟩ := findFirstIdx_some _ 0 j _ ms hFind
    rw [hasAny_iff] at hguard
    obtain ⟨o, rest, h4⟩ := List.exists_cons_of_ne_nil hguard
    have h5 : hasAny (updatedMachines ms) = false := by
      rw [hUpd]; rfl
    have h6 : hasAny (pendingMachines ms) = false := by
      rw [hPend]; rfl
    have he := rolling_phase3_create p ns r m j ms o rest h1 h2 hFind h4 h5 h6
    rw [he, hb]
    exact ⟨rfl, rfl⟩

/-- C4 witness: the amended statement instantiated on `exBlocked` (dense keys
0..2, surge 1, index 0 empty): no provider call, nil error. -/
theorem blocked_create_is_noop_witness :
    (mapKeys exBlocked).Nodup ∧
    (∀ j ∈ List.range exBlocked.length, Int.ofNat j ∈ mapKeys exBlocked) ∧
    totalMachines exBlocked - 3 ≥ 1 ∧
    (∃ k ∈ mapKeys exBlocked, lookupIndex exBlocked k = []) ∧
    ((reconcileMachineRollingUpdate pOk "ns" 3 exBlocked).calls = [] ∧
     (reconcileMachineRollingUpdate pOk "ns" 3 exBlocked).err = none) :=
  ⟨by decide, by decide, by decide, ⟨0, by decide, by decide⟩,
   blocked_create_is_noop pOk "ns" 3 exBlocked (by decide) (by decide)
     (by decide) (Or.inl ⟨0, by decide, by decide⟩)⟩

/-- C6: for strategy Recreate or any unknown strategy value, the dispatcher
sets one Degraded condition with reason InvalidStrategy and a message
beginning with `invalid value for spec.strategy.type`, makes no provider call,
and returns a nil error. -/
theorem invalid_strategy_degraded (p : MachineProvider) (ns : String)
    (r : Int) (m : IndexedMachineInfos) (s : String)
    (h : s = strategyRecreate ∨
      (s ≠ strategyRollingUpdate ∧ s ≠ strategyOnDelete ∧ s ≠ strategyRecreate)) :
    (reconcileMachineUpdates p ns s r m).calls = [] ∧
    (reconcileMachineUpdates p ns s r m).err = none ∧
    ∃ c : Condition,
      (reconcileMachineUpdates p ns s r m).conditions = [c] ∧
      c.type = conditionDegraded ∧ c.status = "True" ∧
      c.reason = reasonInvalidStrategy ∧
      ∃ t, c.message = invalidStrategyMessage ++ t := by
  rcases h with rfl | ⟨h1, h2, h3⟩
  · exact ⟨rfl, rfl,
      ⟨_, rfl, rfl, rfl, rfl, ⟨": " ++ errRecreateStrategyNotSupported, rfl⟩⟩⟩
  · have e : reconcileMachineUpdates p ns s r m =
        { calls := []
          conditions := [{ type := conditionDegraded
                           status := "True"
                           reason := reasonInvalidStrategy
                           message := invalidStrategyMessage ++ (": " ++
                             (errUnknownStrategy ++ (": " ++ s))) }]
          err := none } := by
      unfold reconcileMachineUpdates
      rw [if_neg (by simp [h1]), if_neg (by simp [h2]), if_neg (by simp [h3])]
    rw [e]
    exact ⟨rfl, rfl,
      ⟨_, rfl, rfl, rfl, rfl, ⟨": " ++ (errUnknownStrategy ++ (": " ++ s)), rfl⟩⟩⟩

/-- C6 witness: the Recreate strategy instantiation. -/
theorem invalid_strategy_degraded_witness :
    ("Recreate" = strategyRecreate ∨
      ("Recreate" ≠ strategyRollingUpdate ∧ "Recreate" ≠ strategyOnDelete ∧
        "Recreate" ≠ strategyRecreate)) ∧
    ((reconcileMachineUpdates pOk "ns" "Recreate" 3 []).calls = [] ∧
     (reconcileMachineUpdates pOk "ns" "Recreate" 3 []).err = none ∧
     ∃ c : Condition,
       (reconcileMachineUpdates pOk "ns" "Recreate" 3 []).conditions = [c] ∧
       c.type = conditionDegraded ∧ c.status = "True" ∧
       c.reason = reasonInvalidStrategy ∧
       ∃ t, c.message = invalidStrategyMessage ++ t) :=
  ⟨Or.inl rfl,
   invalid_strategy_degraded pOk "ns" 3 [] "Recreate" (Or.inl rfl)⟩

/-- C9: when no index is empty, no index waits on a sole-pending replacement,
and the first outdated machine at the first outdated index already carries a
deletion timestamp while an updated machine exists at that index, the
rolling-update engine makes no provider call and returns success. -/
theorem wait_for_removal_noop (p : MachineProvider) (ns : String) (r : Int)
    (m : IndexedMachineInfos) (j : Nat) (ms : List MachineInfo)
    (o : MachineInfo) (rest : List MachineInfo)
    (h1 : ∀ ms' ∈ sortMachineInfos m, empty ms' = false)
    (h2 : ∀ ms' ∈ sortMachineInfos m,
      (empty (readyMachines ms') && hasAny (pendingMachines ms')) = false)
    (h3 : findFirstIdx (fun machines => hasAny (needUpdateMachines machines)) 0
      (sortMachineInfos m) = some (j, ms))
    (h4 : needUpdateMachines ms = o :: rest)
    (h5 : hasAny (updatedMachines ms) = true)
    (h6 : isDeletedMachine o = true) :
    (reconcileMachineRollingUpdate p ns r m).calls = [] ∧
    (reconcileMachineRollingUpdate p ns r m).err = none := by
  have he := rolling_wait_removal p ns r m j ms o rest
    ((findFirstIdx_eq_none_iff _ 0 _).mpr h1)
    ((findFirstIdx_eq_none_iff _ 0 _).mpr h2) h3 h4 h5 h6
  rw [he]
  exact ⟨rfl, rfl⟩

/-- C9 witness: spec scenario S5 (`exWaitRemoval`). -/
theorem wait_for_removal_noop_witness :
    (reconcileMachineRollingUpdate pOk "ns" 3 exWaitRemoval).calls = [] ∧
    (reconcileMachineRollingUpdate pOk "ns" 3 exWaitRemoval).err = none :=
  wait_for_removal_noop pOk "ns" 3 exWaitRemoval 0
    [mkMachine 0 "old" true true (some "t"), mkMachine 0 "new" true false none]
    (mkMachine 0 "old" true true (some "t")) []
    (by decide) (by decide) (by decide) (by decide) (by decide) (by decide)

end CPMS
